import Mathlib

/-!
Verification of the btlz-wb-test synchronization pipeline.

This file gives a shallow embedding of the pipeline's core code:

* `TariffSheetSyncService` (Google-Sheets publisher): `formatNumber`,
  `formatDate`, `formatRows`, `getTariffData`, and the retry loop of `sync`;
* `WBTariffsSync` (WB fetcher): `parseNumeric` and the post-response part of
  `sync` (shape validation, mapping, chunked upsert);
* the `tariffs` table (unique key `(warehouse_name, date)`, upsert-merge
  semantics of `insert(..).onConflict([..]).merge()`);
* the hourly cron cycle of `startCron`.

JavaScript numbers are modelled as exact rationals (`ℚ`), with `NaN`
represented by `Option.none` where relevant; JavaScript strings as `List Char`.
The model of `parseFloat` / `Number(..)` covers plain decimal literals with an
optional exponent; `Infinity` and radix-prefixed literals are outside the model
and are treated as not-a-number.  Stateful code is modelled by explicit state
passing: the database table is a `List TariffRow`, and effectful runs return
explicit traces of events (log lines, sleeps, writes).
-/

set_option maxHeartbeats 1000000

namespace BtlzWb

/-! ## JavaScript string and number primitives -/

/-- JS `String.prototype.trim()` on the character-list model of strings. -/
def jsTrim (l : List Char) : List Char :=
  ((l.dropWhile Char.isWhitespace).reverse.dropWhile Char.isWhitespace).reverse

/-- Numeric value of a decimal digit character. -/
def digitVal (c : Char) : ℕ := c.toNat - 48

/-- Value of a list of decimal digit characters, most significant first. -/
def digitsToNat (l : List Char) : ℕ := l.foldl (fun a c => 10 * a + digitVal c) 0

/-- The optional leading sign of a decimal literal: the sign factor and the
remaining characters. -/
def signSplit (l : List Char) : ℚ × List Char :=
  match l with
  | [] => (1, [])
  | c :: rest => if c = '-' then (-1, rest) else if c = '+' then (1, rest) else (1, c :: rest)

/-- The optional `.`-plus-fraction-digits part: the fraction digits and the
remaining characters. -/
def fracSplit (l : List Char) : List Char × List Char :=
  match l with
  | [] => ([], [])
  | c :: rest =>
    if c = '.' then (rest.takeWhile Char.isDigit, rest.dropWhile Char.isDigit) else ([], c :: rest)

/-- The optional exponent part (`e`/`E`, optional sign, digits): the exponent
and the remaining characters.  An `e` not followed by a digit is not consumed
(JS parses `"1e"` as `1`). -/
def expSplit (l : List Char) : ℤ × List Char :=
  match l with
  | [] => (0, [])
  | c :: rest =>
    if c = 'e' ∨ c = 'E' then
      let sr : ℤ × List Char :=
        match rest with
        | [] => (1, [])
        | c2 :: r2 => if c2 = '-' then (-1, r2) else if c2 = '+' then (1, r2) else (1, c2 :: r2)
      let eds := sr.2.takeWhile Char.isDigit
      if eds.isEmpty then (0, c :: rest)
      else (sr.1 * (digitsToNat eds : ℤ), sr.2.dropWhile Char.isDigit)
    else (0, c :: rest)

/-- Core decimal-literal scanner behind `parseFloat`: optional sign, integer
digits, optional `.` plus fraction digits, optional exponent part.  Returns the
parsed value and the unconsumed remainder, or `none` when no digit was
consumed (JS `NaN`). -/
def parseDecCore (l : List Char) : Option (ℚ × List Char) :=
  if ((signSplit l).2.takeWhile Char.isDigit).isEmpty ∧
      (fracSplit ((signSplit l).2.dropWhile Char.isDigit)).1.isEmpty then none
  else
    some ((signSplit l).1 *
        ((digitsToNat ((signSplit l).2.takeWhile Char.isDigit) : ℚ) +
          (digitsToNat (fracSplit ((signSplit l).2.dropWhile Char.isDigit)).1 : ℚ) /
            (10 : ℚ) ^ (fracSplit ((signSplit l).2.dropWhile Char.isDigit)).1.length) *
        (10 : ℚ) ^ (expSplit (fracSplit ((signSplit l).2.dropWhile Char.isDigit)).2).1,
      (expSplit (fracSplit ((signSplit l).2.dropWhile Char.isDigit)).2).2)

/-- JS `parseFloat` on the character-list model: skip leading whitespace, then
parse the longest decimal-literal prefix; `none` is `NaN`. -/
def parseFloatL (l : List Char) : Option ℚ :=
  (parseDecCore (l.dropWhile Char.isWhitespace)).map Prod.fst

/-- JS `Number(s)` for a string `s`: the whole (trimmed) string must be a
decimal literal; the empty/whitespace string coerces to `0`; `none` is `NaN`. -/
def jsStringToNumber (l : List Char) : Option ℚ :=
  let t := jsTrim l
  if t.isEmpty then some 0
  else
    match parseDecCore t with
    | some (q, []) => some q
    | _ => none

/-- The JS values relevant to `formatNumber`'s `unknown` argument. -/
inductive JSValue where
  | null
  | undefined
  | nan
  | num (q : ℚ)
  | str (s : List Char)
  | boolean (b : Bool)
deriving DecidableEq

/-- JS `Number(value)` coercion; `none` is `NaN`.  In particular
`Number(null) = 0` and `Number(undefined) = NaN`. -/
def jsToNumber : JSValue → Option ℚ
  | .null => some 0
  | .undefined => none
  | .nan => none
  | .num q => some q
  | .str s => jsStringToNumber s
  | .boolean b => some (if b then 1 else 0)

/-- JS `String.prototype.replace` with a one-character string pattern:
replaces only the first occurrence. -/
def replaceFirstChar (a b : Char) : List Char → List Char
  | [] => []
  | c :: cs => if c = a then b :: cs else c :: replaceFirstChar a b cs

/-- JS `String.prototype.padStart(2, "0")`. -/
def padStart2 (l : List Char) : List Char :=
  if l.length < 2 then List.replicate (2 - l.length) '0' ++ l else l

/-- Decimal rendering of a natural number, as characters. -/
def natChars (n : ℕ) : List Char := (Nat.repr n).toList

/-- Digit layout of `toFixed(2)` for the nonnegative rounded value
`n` = hundredths: integer part, a dot, and exactly two fraction digits. -/
def fixedDigits (n : ℕ) : List Char :=
  natChars (n / 100) ++ '.' :: padStart2 (natChars (n % 100))

/-- JS `Number.prototype.toFixed(2)` on the exact-rational model, following
ECMA-262: a negative argument is rendered as `-` plus the rendering of its
negation; the hundredths count is the integer closest to `100 * q`, ties going
to the larger one. -/
def toFixed2 (q : ℚ) : List Char :=
  if q < 0 then '-' :: fixedDigits (⌊100 * (-q) + 1 / 2⌋).toNat
  else fixedDigits (⌊100 * q + 1 / 2⌋).toNat

/-! ## `TariffSheetSyncService.formatNumber` and `formatDate` -/

/-- `TariffSheetSyncService.formatNumber`: `Number(value)`, `null` when the
result is `NaN`, otherwise `toFixed(2)` with the first `.` replaced by `,`. -/
def formatNumber (v : JSValue) : Option String :=
  match jsToNumber v with
  | none => none
  | some q => some (String.mk (replaceFirstChar '.' ',' (toFixed2 q)))

/-- A JS `Date`, reduced to the three local-calendar accessors the code reads:
`getFullYear`, zero-based `getMonth`, and day-of-month `getDate`. -/
structure JSDate where
  getFullYear : ℕ
  getMonth : ℕ
  getDate : ℕ
deriving DecidableEq

/-- `TariffSheetSyncService.formatDate`: `null` for an absent argument,
otherwise `padStart(2)`-padded day and month (the latter shifted from
zero-based to one-based), a dot between the parts, and the unpadded year. -/
def formatDate : Option JSDate → Option String
  | none => none
  | some d =>
      some (String.mk (padStart2 (natChars d.getDate) ++
        '.' :: padStart2 (natChars (d.getMonth + 1)) ++
        '.' :: natChars d.getFullYear))

/-! ## The `tariffs` table -/

/-- A row of the `tariffs` table, per the `createTable` migration: the key
columns `warehouse_name` and `date`, five nullable `decimal(10,2)` money
columns, and `updated_at` (modelled as an abstract clock value).  The
surrogate `id` column is not modelled; it plays no role in the pipeline. -/
structure TariffRow where
  warehouse_name : String
  date : JSDate
  delivery_and_storage_expr : Option ℚ
  delivery_base : Option ℚ
  delivery_liter : Option ℚ
  storage_base : Option ℚ
  storage_liter : Option ℚ
  updated_at : ℕ
deriving DecidableEq

/-- The unique key of the `tariffs` table: `(warehouse_name, date)`. -/
def rowKey (r : TariffRow) : String × JSDate := (r.warehouse_name, r.date)

/-- The table invariant installed by `table.unique(["warehouse_name", "date"])`:
no two rows share a key. -/
def KeysDistinct (db : List TariffRow) : Prop := (db.map rowKey).Nodup

instance : DecidablePred KeysDistinct := fun db =>
  inferInstanceAs (Decidable (db.map rowKey).Nodup)

/-- The `ON CONFLICT` test: does row `x` collide with incoming row `r` on
the unique key? -/
def keyMatch (r x : TariffRow) : Bool := decide (rowKey x = rowKey r)

/-- One row of `insert(chunk).onConflict(["warehouse_name", "date"]).merge()`:
if a row with the same key exists it is overwritten with the incoming row
(the insert carries every modelled column, so `merge()` replaces them all);
otherwise the incoming row is appended. -/
def upsertRow (db : List TariffRow) (r : TariffRow) : List TariffRow :=
  if db.any (keyMatch r) then
    db.map (fun x => if keyMatch r x then r else x)
  else db ++ [r]

/-- Fuel-driven core of the chunk slicing; every step consumes at least the
head element, so fuel `l.length` always suffices. -/
def chunksAux : ℕ → List TariffRow → List (List TariffRow)
  | _, [] => []
  | 0, _ :: _ => []
  | fuel + 1, c :: t => ((c :: t).take 100) :: chunksAux fuel ((c :: t).drop 100)

/-- The `for (let i = 0; i < tariffs.length; i += chunkSize)` slicing with
`chunkSize = 100`. -/
def chunks100 (l : List TariffRow) : List (List TariffRow) :=
  chunksAux l.length l

/-- The database writes of one WB sync: each chunk is upserted in order. -/
def applyChunks (db : List TariffRow) (ts : List TariffRow) : List TariffRow :=
  (chunks100 ts).foldl (fun d c => c.foldl upsertRow d) db

/-! ## `WBTariffsSync` -/

/-- The log lines of `WBTariffsSync.sync` and `parseNumeric`. -/
inductive WBLog where
  | infoStart (d : JSDate)
  | warnInvalidFormat
  | warnParseFail (raw : String)
  | infoFound (n : ℕ)
  | infoCompleted
  | errorSyncFailed
deriving DecidableEq

/-- `WBTariffsSync.parseNumeric`: `null` (no warning) for `null`/`undefined`,
the empty string (all falsy), or a string trimming to a lone dash; otherwise
`parseFloat` of the string with its first comma replaced by a period, warning
and returning `null` when the result is `NaN`. -/
def parseNumeric (value : Option String) : Option ℚ × List WBLog :=
  match value with
  | none => (none, [])
  | some s =>
    if s.toList.isEmpty ∨ jsTrim s.toList = ['-'] then (none, [])
    else
      match parseFloatL (replaceFirstChar ',' '.' s.toList) with
      | none => (none, [.warnParseFail s])
      | some q => (some q, [])

/-- An element of the upstream `warehouseList`, with the raw string fields the
mapper reads (a missing field is `none`, i.e. `undefined`). -/
structure RawWarehouse where
  warehouseName : String
  boxDeliveryBase : Option String
  boxDeliveryLiter : Option String
  boxDeliveryAndStorageExpr : Option String
  boxStorageBase : Option String
  boxStorageLiter : Option String

/-- The value found at `response?.data?.response?.data?.warehouseList` after
the `Array.isArray` check: either an actual array, or anything else
(missing, `null`, an object, ...), which the check rejects. -/
inductive ApiPayload where
  | list (ws : List RawWarehouse)
  | notArray

/-- The `warehouseList.map((w) => ...)` body: one `TariffRow` stamped with
today's date and the current clock, plus the parse warnings it emitted. -/
def rawToTariff (today : JSDate) (now : ℕ) (w : RawWarehouse) : TariffRow × List WBLog :=
  let db := parseNumeric w.boxDeliveryBase
  let dl := parseNumeric w.boxDeliveryLiter
  let de := parseNumeric w.boxDeliveryAndStorageExpr
  let sb := parseNumeric w.boxStorageBase
  let sl := parseNumeric w.boxStorageLiter
  ({ warehouse_name := w.warehouseName
     date := today
     delivery_base := db.1
     delivery_liter := dl.1
     delivery_and_storage_expr := de.1
     storage_base := sb.1
     storage_liter := sl.1
     updated_at := now },
   db.2 ++ dl.2 ++ de.2 ++ sb.2 ++ sl.2)

/-- The post-response part of `WBTariffsSync.sync`, given the value at the
`warehouseList` path of a successfully fetched response: shape validation,
mapping through `parseNumeric`, and the chunked upsert.  Returns the new table
and the emitted log lines. -/
def wbSync (db : List TariffRow) (payload : ApiPayload) (today : JSDate) (now : ℕ) :
    List TariffRow × List WBLog :=
  match payload with
  | .notArray => (db, [.infoStart today, .warnInvalidFormat])
  | .list ws =>
    let mapped := ws.map (rawToTariff today now)
    let tariffs := mapped.map Prod.fst
    let warns := (mapped.map Prod.snd).flatten
    (applyChunks db tariffs,
     .infoStart today :: warns ++ [.infoFound tariffs.length, .infoCompleted])

/-! ## `TariffSheetSyncService`: data path -/

/-- SQL ascending comparison on a nullable column, `NULL`s last
(Postgres `ASC` default). -/
def colAsc (x y : Option ℚ) : Prop :=
  match x, y with
  | some a, some b => a ≤ b
  | some _, none => True
  | none, some _ => False
  | none, none => True

theorem colAsc_total (x y : Option ℚ) : colAsc x y ∨ colAsc y x := by
  unfold colAsc
  rcases x with _ | a <;> rcases y with _ | b
  · exact Or.inl trivial
  · exact Or.inr trivial
  · exact Or.inl trivial
  · exact le_total a b

theorem colAsc_trans (x y z : Option ℚ) (hxy : colAsc x y) (hyz : colAsc y z) :
    colAsc x z := by
  unfold colAsc at hxy hyz ⊢
  rcases x with _ | a <;> rcases y with _ | b <;> rcases z with _ | c <;> try trivial
  exact le_trans hxy hyz

instance : (x y : Option ℚ) → Decidable (colAsc x y) := fun x y => by
  unfold colAsc
  rcases x with _ | a <;> rcases y with _ | b <;> exact inferInstance

/-- The sort relation of `orderBy("delivery_liter", "asc")`: ascending on the
`delivery_liter` column. -/
def literLe (a b : TariffRow) : Prop :=
  colAsc a.delivery_liter b.delivery_liter

instance : DecidableRel literLe := fun a b =>
  inferInstanceAs (Decidable (colAsc a.delivery_liter b.delivery_liter))

instance : IsTotal TariffRow literLe :=
  ⟨fun a b => colAsc_total a.delivery_liter b.delivery_liter⟩

instance : IsTrans TariffRow literLe :=
  ⟨fun a b c => colAsc_trans a.delivery_liter b.delivery_liter c.delivery_liter⟩

/-- `TariffSheetSyncService.getTariffData`: `select("*")` from `tariffs`
ordered ascending by `delivery_liter` (modelled as a stable sort of the
table's rows under `literLe`). -/
def getTariffData (db : List TariffRow) : List TariffRow :=
  db.insertionSort literLe

/-- A spreadsheet cell as built by `formatRows`: a string or `null`. -/
abbrev Cell := Option String

/-- The fixed header row of `formatRows`. -/
def headerRow : List Cell :=
  [some "Date", some "Warehouse", some "DeliveryBase", some "DeliveryLiter",
   some "DeliveryAndStorageExpr", some "StorageBase", some "StorageLiter"]

/-- How a nullable numeric column reaches `formatNumber`: SQL `NULL` arrives
as JS `null`, a numeric value as a JS number. -/
def jsOfCol : Option ℚ → JSValue
  | none => .null
  | some q => .num q

/-- One data row of `formatRows`: formatted date, warehouse name, then the
five money columns through `formatNumber`, in the source's fixed order. -/
def rowCells (r : TariffRow) : List Cell :=
  [formatDate (some r.date),
   some r.warehouse_name,
   formatNumber (jsOfCol r.delivery_base),
   formatNumber (jsOfCol r.delivery_liter),
   formatNumber (jsOfCol r.delivery_and_storage_expr),
   formatNumber (jsOfCol r.storage_base),
   formatNumber (jsOfCol r.storage_liter)]

/-- `TariffSheetSyncService.formatRows`: the header row followed by one
`rowCells` row per record. -/
def formatRows (data : List TariffRow) : List (List Cell) :=
  headerRow :: data.map rowCells

/-- The grid a successful `sync` attempt passes to `updateSheet`:
`formatRows` applied to the ordered table read. -/
def attemptGrid (db : List TariffRow) : List (List Cell) :=
  formatRows (getTariffData db)

/-! ## `TariffSheetSyncService.sync`: retry loop -/

/-- Observable events of one `TariffSheetSyncService.sync` run.
`attemptRun i` is the `i`-th try of the read-format-clear-write sequence
(1-based, as in the source's `for` loop). -/
inductive PubEvent where
  | attemptRun (i : ℕ)
  | logSuccess
  | logAttemptFail (i : ℕ)
  | logRetry
  | sleepMs (ms : ℕ)
  | logTerminal
deriving DecidableEq

/-- The body of `sync`'s `for (let attempt = 1; attempt <= maxRetries; ...)`
loop, driven by `outcome i` (does attempt `i` succeed?), with `remaining`
iterations left (`remaining = maxRetries - attempt + 1`).  A successful
attempt logs and `break`s; a failed one logs the error, then either logs the
retry, sleeps `1000 * 2 ^ attempt` ms and continues, or (when it was the last
allowed attempt) logs the terminal failure. -/
def syncGo (outcome : ℕ → Bool) (attempt : ℕ) : ℕ → List PubEvent
  | 0 => []
  | r + 1 =>
    if outcome attempt then [.attemptRun attempt, .logSuccess]
    else
      [.attemptRun attempt, .logAttemptFail attempt] ++
        (if r = 0 then [.logTerminal]
         else [.logRetry, .sleepMs (1000 * 2 ^ attempt)] ++ syncGo outcome (attempt + 1) r)

/-- `TariffSheetSyncService.sync` as an event trace.  `maxRetries` is an
integer (the constructor accepts any value); the loop from `attempt = 1`
while `attempt <= maxRetries` runs `max maxRetries 0` times at most. -/
def pubSync (maxRetries : ℤ) (outcome : ℕ → Bool) : List PubEvent :=
  syncGo outcome 1 maxRetries.toNat

/-- The attempt indices of a publisher trace, in order. -/
def attemptsOf (t : List PubEvent) : List ℕ :=
  t.filterMap fun e => match e with | .attemptRun i => some i | _ => none

/-- The sleep durations of a publisher trace, in order. -/
def sleepsOf (t : List PubEvent) : List ℕ :=
  t.filterMap fun e => match e with | .sleepMs ms => some ms | _ => none

/-- The number of attempts the loop performs before stopping: it stops right
after the first success, and never exceeds the remaining budget. -/
def attemptSpan (outcome : ℕ → Bool) (attempt : ℕ) : ℕ → ℕ
  | 0 => 0
  | r + 1 => if outcome attempt then 1 else 1 + attemptSpan outcome (attempt + 1) r

/-! ## `startCron`: the hourly cycle -/

/-- Observable events of one firing of the hourly cron callback. -/
inductive CronEvent where
  | logCycleStart
  | fetchStart
  | fetchOk
  | logFetched
  | pubStart (id : String)
  | pubOk (id : String)
  | logCronError
deriving DecidableEq

/-- The `for (const spreadsheetId of spreadsheetIds)` loop: construct a
publisher and await its `sync` for each id in order, stopping at the first
escaping error.  Returns the trace and the escaping error, if any. -/
def pubsBody (pub : String → Except String Unit) : List String → List CronEvent × Option String
  | [] => ([], none)
  | id :: rest =>
    match pub id with
    | .error e => ([.pubStart id], some e)
    | .ok _ =>
      let tr := pubsBody pub rest
      (.pubStart id :: .pubOk id :: tr.1, tr.2)

/-- The `try` body of the cron callback: await the fetcher's `sync()`, log,
then run the publishers sequentially.  Returns the trace up to the point an
error escaped (if one did) together with that error. -/
def cycleBody (ids : List String) (fetch : Except String Unit)
    (pub : String → Except String Unit) : List CronEvent × Option String :=
  match fetch with
  | .error e => ([.logCycleStart, .fetchStart], some e)
  | .ok _ =>
    let tr := pubsBody pub ids
    ([.logCycleStart, .fetchStart, .fetchOk, .logFetched] ++ tr.1, tr.2)

/-- One full firing of the cron callback, with its `catch`: an escaping error
is logged and swallowed, so the callback always returns a plain trace. -/
def runCycle (ids : List String) (fetch : Except String Unit)
    (pub : String → Except String Unit) : List CronEvent :=
  match cycleBody ids fetch pub with
  | (t, none) => t
  | (t, some _) => t ++ [.logCronError]

/-- The ids the cycle published (started a publisher for), in order. -/
def pubIdsOf (t : List CronEvent) : List String :=
  t.filterMap fun e => match e with | .pubStart id => some id | _ => none

/-! ## Helper lemmas: decimal digit strings -/

theorem digitChar_isDigit : ∀ k < 10, (Nat.digitChar k).isDigit = true := by decide

theorem toDigitsCore_chars (f : ℕ) : ∀ (n : ℕ) (acc : List Char),
    ∀ c ∈ Nat.toDigitsCore 10 f n acc, c ∈ acc ∨ c.isDigit = true := by
  induction f with
  | zero => exact fun n acc c hc => Or.inl hc
  | succ f ih =>
    intro n acc c hc
    simp only [Nat.toDigitsCore] at hc
    by_cases h : n / 10 = 0
    · rw [if_pos h] at hc
      rcases List.mem_cons.mp hc with hc | hc
      · exact Or.inr (hc ▸ digitChar_isDigit _ (Nat.mod_lt n (by norm_num)))
      · exact Or.inl hc
    · rw [if_neg h] at hc
      rcases ih (n / 10) (Nat.digitChar (n % 10) :: acc) c hc with hc | hc
      · rcases List.mem_cons.mp hc with hc | hc
        · exact Or.inr (hc ▸ digitChar_isDigit _ (Nat.mod_lt n (by norm_num)))
        · exact Or.inl hc
      · exact Or.inr hc

theorem natChars_eq_toDigitsCore (n : ℕ) : natChars n = Nat.toDigitsCore 10 (n + 1) n [] := rfl

theorem natChars_isDigit (n : ℕ) : ∀ c ∈ natChars n, c.isDigit = true := by
  intro c hc
  rw [natChars_eq_toDigitsCore] at hc
  rcases toDigitsCore_chars (n + 1) n [] c hc with hc | hc
  · exact absurd hc (List.not_mem_nil c)
  · exact hc

theorem natChars_length_le (n e : ℕ) (he : 0 < e) (h : n < 10 ^ e) :
    (natChars n).length ≤ e := by
  have := Nat.repr_length n e he h
  simpa [natChars] using this

/-- Auxiliary step: with positive fuel, `toDigitsCore` grows its accumulator
by at least one character. -/
theorem toDigitsCore_length_pos (f : ℕ) : ∀ (n : ℕ) (acc : List Char), 0 < f →
    acc.length + 1 ≤ (Nat.toDigitsCore 10 f n acc).length := by
  induction f with
  | zero => intro n acc h; exact absurd h (lt_irrefl 0)
  | succ f ih =>
    intro n acc _
    simp only [Nat.toDigitsCore]
    by_cases h : n / 10 = 0
    · rw [if_pos h]; simp
    · rw [if_neg h]
      rcases Nat.eq_zero_or_pos f with rfl | hf
      · simp [Nat.toDigitsCore]
      · calc acc.length + 1 ≤ (Nat.digitChar (n % 10) :: acc).length := by simp
          _ ≤ (Nat.toDigitsCore 10 f (n / 10) (Nat.digitChar (n % 10) :: acc)).length :=
            Nat.le_of_succ_le (ih (n / 10) (Nat.digitChar (n % 10) :: acc) hf)

/-- A number with at least `e + 1` decimal digits yields at least `e + 1`
characters from `toDigitsCore` (with enough fuel). -/
theorem toDigitsCore_length_ge (e : ℕ) : ∀ (n f : ℕ), 10 ^ e ≤ n → n < f →
    e + 1 ≤ (Nat.toDigitsCore 10 f n []).length := by
  induction e with
  | zero =>
    intro n f hn hf
    have hfpos : 0 < f := lt_of_le_of_lt (Nat.zero_le n) hf
    rcases Nat.exists_eq_succ_of_ne_zero (Nat.pos_iff_ne_zero.mp hfpos) with ⟨f', rfl⟩
    exact toDigitsCore_length_pos (f' + 1) n [] (Nat.succ_pos f')
  | succ e ih =>
    intro n f hn hf
    have hn10 : 10 ^ e ≤ n / 10 := by
      rw [Nat.le_div_iff_mul_le (by norm_num)]
      calc 10 ^ e * 10 = 10 ^ (e + 1) := (pow_succ 10 e).symm
        _ ≤ n := hn
    have hnz : n / 10 ≠ 0 := by
      intro h
      rw [h] at hn10
      exact absurd hn10 (by simp [Nat.pos_iff_ne_zero, pow_eq_zero_iff] at hn10 ⊢)
    have hnpos : 0 < n := lt_of_lt_of_le (pow_pos (by norm_num) (e + 1)) hn
    rcases Nat.exists_eq_succ_of_ne_zero (Nat.pos_iff_ne_zero.mp (lt_of_le_of_lt (Nat.zero_le n) hf)) with ⟨f', rfl⟩
    have hstep : Nat.toDigitsCore 10 (f' + 1) n [] =
        Nat.toDigitsCore 10 f' (n / 10) [Nat.digitChar (n % 10)] := by
      simp only [Nat.toDigitsCore]
      rw [if_neg hnz]
    rw [hstep]
    have hlen : (Nat.toDigitsCore 10 f' (n / 10) [Nat.digitChar (n % 10)]).length =
        (Nat.toDigitsCore 10 f' (n / 10) []).length + 1 :=
      Nat.toDigitsCore_lens_eq 10 f' (n / 10) (Nat.digitChar (n % 10)) []
    rw [hlen]
    have hf' : n / 10 < f' := by
      have h1 : n / 10 < n := Nat.div_lt_self hnpos (by norm_num)
      omega
    exact Nat.succ_le_succ (ih (n / 10) f' hn10 hf')

/-- Exact digit count: a four-digit year renders as exactly four characters. -/
theorem natChars_length_year (y : ℕ) (h1 : 1000 ≤ y) (h2 : y ≤ 9999) :
    (natChars y).length = 4 := by
  have hle : (natChars y).length ≤ 4 := natChars_length_le y 4 (by norm_num) (by omega)
  have hge : 4 ≤ (natChars y).length := by
    have := toDigitsCore_length_ge 3 y (y + 1) (by norm_num; omega) (Nat.lt_succ_self y)
    rw [natChars_eq_toDigitsCore]
    omega
  omega

/-! ## Helper lemmas: characters and list scanning -/

theorem isDigit_facts (c : Char) (h : c.isDigit = true) :
    c ≠ '.' ∧ c ≠ ',' ∧ c ≠ '-' ∧ c ≠ '+' ∧ c.isWhitespace = false := by
  have h1 : c ≠ '.' := by rintro rfl; exact absurd h (by decide)
  have h2 : c ≠ ',' := by rintro rfl; exact absurd h (by decide)
  have h3 : c ≠ '-' := by rintro rfl; exact absurd h (by decide)
  have h4 : c ≠ '+' := by rintro rfl; exact absurd h (by decide)
  have h5 : c.isWhitespace = false := by
    have hs : c ≠ ' ' := by rintro rfl; exact absurd h (by decide)
    have ht : c ≠ '\t' := by rintro rfl; exact absurd h (by decide)
    have hr : c ≠ '\r' := by rintro rfl; exact absurd h (by decide)
    have hn : c ≠ '\n' := by rintro rfl; exact absurd h (by decide)
    simp only [Char.isWhitespace, Bool.or_eq_false_iff, decide_eq_false_iff_not]
    exact ⟨⟨⟨hs, ht⟩, hr⟩, hn⟩
  exact ⟨h1, h2, h3, h4, h5⟩

theorem takeWhile_all {p : Char → Bool} :
    ∀ l : List Char, (∀ x ∈ l, p x = true) → l.takeWhile p = l ∧ l.dropWhile p = [] := by
  intro l
  induction l with
  | nil => intro _; exact ⟨rfl, rfl⟩
  | cons c t ih =>
    intro h
    have hc : p c = true := h c (List.mem_cons_self c t)
    have ht := ih fun x hx => h x (List.mem_cons_of_mem c hx)
    rw [List.takeWhile_cons, List.dropWhile_cons, if_pos hc, if_pos hc, ht.1, ht.2]
    exact ⟨rfl, rfl⟩

theorem takeWhile_append_stop {p : Char → Bool} (l1 : List Char) (c : Char) (l2 : List Char)
    (h1 : ∀ x ∈ l1, p x = true) (hc : p c = false) :
    (l1 ++ c :: l2).takeWhile p = l1 ∧ (l1 ++ c :: l2).dropWhile p = c :: l2 := by
  induction l1 with
  | nil =>
    rw [List.nil_append, List.takeWhile_cons, List.dropWhile_cons, hc]
    exact ⟨rfl, rfl⟩
  | cons a t ih =>
    have ha : p a = true := h1 a (List.mem_cons_self a t)
    have ht := ih fun x hx => h1 x (List.mem_cons_of_mem a hx)
    rw [List.cons_append, List.takeWhile_cons, List.dropWhile_cons, if_pos ha, if_pos ha,
      ht.1, ht.2]
    exact ⟨rfl, rfl⟩

theorem replaceFirstChar_append (a b : Char) (l1 l2 : List Char) (h : a ∉ l1) :
    replaceFirstChar a b (l1 ++ a :: l2) = l1 ++ b :: l2 := by
  induction l1 with
  | nil => simp [replaceFirstChar]
  | cons c t ih =>
    have hca : c ≠ a := fun e => h (e ▸ List.mem_cons_self c t)
    have hrec := ih fun hm => h (List.mem_cons_of_mem c hm)
    rw [List.cons_append, List.cons_append]
    unfold replaceFirstChar
    rw [if_neg hca, hrec]

theorem padStart2_pair (m : ℕ) (h : m < 100) :
    ∃ d1 d2, padStart2 (natChars m) = [d1, d2] ∧ d1.isDigit = true ∧ d2.isDigit = true := by
  have hle : (natChars m).length ≤ 2 := natChars_length_le m 2 (by norm_num) (by omega)
  have hlen : (padStart2 (natChars m)).length = 2 := by
    unfold padStart2
    by_cases hl : (natChars m).length < 2
    · rw [if_pos hl]
      simp only [List.length_append, List.length_replicate]
      omega
    · rw [if_neg hl]; omega
  have hdig : ∀ c ∈ padStart2 (natChars m), c.isDigit = true := by
    intro c hc
    unfold padStart2 at hc
    by_cases hl : (natChars m).length < 2
    · rw [if_pos hl] at hc
      rcases List.mem_append.mp hc with hc | hc
      · rw [List.eq_of_mem_replicate hc]; decide
      · exact natChars_isDigit m c hc
    · rw [if_neg hl] at hc
      exact natChars_isDigit m c hc
  obtain ⟨d1, d2, hp⟩ := List.length_eq_two.mp hlen
  exact ⟨d1, d2, hp,
    hdig d1 (hp ▸ List.mem_cons_self d1 [d2]),
    hdig d2 (hp ▸ List.mem_cons_of_mem d1 (List.mem_cons_self d2 []))⟩

/-! ## Helper lemmas: `formatNumber` -/

theorem toFixed2_shape (q : ℚ) :
    ∃ pre m, toFixed2 q = pre ++ '.' :: padStart2 (natChars m) ∧ m < 100 ∧
      '.' ∉ pre ∧ ',' ∉ pre := by
  have hnotin : ∀ (k : ℕ), '.' ∉ natChars k ∧ ',' ∉ natChars k := by
    intro k
    constructor
    · intro hm; exact absurd rfl (isDigit_facts _ (natChars_isDigit k _ hm)).1
    · intro hm; exact absurd rfl (isDigit_facts _ (natChars_isDigit k _ hm)).2.1
  unfold toFixed2 fixedDigits
  by_cases h : q < 0
  · rw [if_pos h]
    refine ⟨'-' :: natChars ((⌊100 * (-q) + 1 / 2⌋).toNat / 100),
      (⌊100 * (-q) + 1 / 2⌋).toNat % 100, rfl, Nat.mod_lt _ (by norm_num), ?_, ?_⟩
    · intro hm
      rcases List.mem_cons.mp hm with hm | hm
      · exact absurd hm (by decide)
      · exact (hnotin _).1 hm
    · intro hm
      rcases List.mem_cons.mp hm with hm | hm
      · exact absurd hm (by decide)
      · exact (hnotin _).2 hm
  · rw [if_neg h]
    exact ⟨natChars ((⌊100 * q + 1 / 2⌋).toNat / 100), (⌊100 * q + 1 / 2⌋).toNat % 100, rfl,
      Nat.mod_lt _ (by norm_num), (hnotin _).1, (hnotin _).2⟩

theorem formatNumber_shape (v : JSValue) (q : ℚ) (h : jsToNumber v = some q) :
    ∃ pre d1 d2, formatNumber v = some (String.mk (pre ++ ',' :: [d1, d2])) ∧
      d1.isDigit = true ∧ d2.isDigit = true ∧ ',' ∉ pre := by
  obtain ⟨pre, m, hfx, hm, hdot, hcomma⟩ := toFixed2_shape q
  obtain ⟨d1, d2, hpad, hd1, hd2⟩ := padStart2_pair m hm
  refine ⟨pre, d1, d2, ?_, hd1, hd2, hcomma⟩
  unfold formatNumber
  rw [h]
  show some (String.mk (replaceFirstChar '.' ',' (toFixed2 q))) = _
  rw [hfx, hpad, replaceFirstChar_append '.' ',' pre [d1, d2] hdot]

theorem formatNumber_eval (v : JSValue) (q : ℚ) (n : ℕ) (hv : jsToNumber v = some q)
    (h0 : ¬ q < 0) (hf : ⌊100 * q + 1 / 2⌋ = (n : ℤ)) :
    formatNumber v = some (String.mk (replaceFirstChar '.' ',' (fixedDigits n))) := by
  unfold formatNumber
  rw [hv]
  show some (String.mk (replaceFirstChar '.' ',' (toFixed2 q))) = _
  unfold toFixed2
  rw [if_neg h0, hf, Int.toNat_natCast]

/-! ## Claim C1: `TariffSheetSyncService.formatNumber` -/

/-- **C1, counterexample.**  The claim says `formatNumber` returns absent for
every non-numeric input, in particular for `null`.  In fact JS `Number(null)`
is `0`, so `formatNumber(null)` is the string `"0,00"`, not absent. -/
theorem C1_counterexample :
    formatNumber JSValue.null ≠ none ∧ formatNumber JSValue.null = some "0,00" := by
  have h := formatNumber_eval JSValue.null 0 0 rfl (lt_irrefl 0) (by norm_num)
  rw [h]
  exact ⟨fun hx => Option.noConfusion hx, by decide⟩

/-- **C1 (amended).**  `formatNumber` converts its input with JS `Number`
coercion.  Inputs coercing to `NaN` — among them `undefined` and non-numeric
strings — yield absent; every input coercing to a number is rendered with
exactly two fractional digits after a comma separator (and no comma occurs
before the separator); in particular `1234.5` renders as `"1234,50"`.
Contrary to the original claim, `null` is not mapped to absent: it coerces to
`0` and renders as `"0,00"`. -/
theorem C1_formatNumber_amended :
    (∀ v : JSValue, jsToNumber v = none → formatNumber v = none) ∧
    (∀ (v : JSValue) (q : ℚ), jsToNumber v = some q →
      ∃ pre d1 d2, formatNumber v = some (String.mk (pre ++ ',' :: [d1, d2])) ∧
        d1.isDigit = true ∧ d2.isDigit = true ∧ ',' ∉ pre) ∧
    formatNumber (JSValue.num (1234.5 : ℚ)) = some "1234,50" ∧
    formatNumber JSValue.undefined = none ∧
    formatNumber JSValue.null = some "0,00" := by
  refine ⟨?_, formatNumber_shape, ?_, rfl, ?_⟩
  · intro v hv
    unfold formatNumber
    rw [hv]
  · have h := formatNumber_eval (JSValue.num (1234.5 : ℚ)) (1234.5 : ℚ) 123450 rfl
      (by norm_num) (by norm_num)
    rw [h]
    decide
  · have h := formatNumber_eval JSValue.null 0 0 rfl (lt_irrefl 0) (by norm_num)
    rw [h]
    decide

/-- **C1, witness.**  The amended theorem applied at the concrete input `0`. -/
theorem C1_witness :
    jsToNumber (JSValue.num 0) = some 0 ∧
    ∃ pre d1 d2, formatNumber (JSValue.num 0) = some (String.mk (pre ++ ',' :: [d1, d2])) ∧
      d1.isDigit = true ∧ d2.isDigit = true ∧ ',' ∉ pre :=
  ⟨rfl, C1_formatNumber_amended.2.1 (JSValue.num 0) 0 rfl⟩

/-! ## Helper lemmas: `parseNumeric` -/

theorem jsTrim_subset (l : List Char) (c : Char) (h : c ∈ jsTrim l) : c ∈ l := by
  unfold jsTrim at h
  rw [List.mem_reverse] at h
  have h1 := (List.dropWhile_sublist (l := (l.dropWhile Char.isWhitespace).reverse)
    Char.isWhitespace).mem h
  rw [List.mem_reverse] at h1
  exact (List.dropWhile_sublist Char.isWhitespace).mem h1

/-- Round trip for a plain comma-decimal numeric string, character level:
digits, one comma, digits parse to the expected rational, with no warning. -/
theorem parseNumeric_decimal (l1 l2 : List Char) (h1 : l1 ≠ []) (h2 : l2 ≠ [])
    (hd1 : ∀ c ∈ l1, c.isDigit = true) (hd2 : ∀ c ∈ l2, c.isDigit = true) :
    parseNumeric (some (String.mk (l1 ++ ',' :: l2))) =
      (some ((digitsToNat l1 : ℚ) + (digitsToNat l2 : ℚ) / (10 : ℚ) ^ l2.length), []) := by
  obtain ⟨c0, t1, rfl⟩ : ∃ c0 t1, l1 = c0 :: t1 := by
    cases l1 with
    | nil => exact absurd rfl h1
    | cons a t => exact ⟨a, t, rfl⟩
  have hc0 : c0.isDigit = true := hd1 c0 (List.mem_cons_self _ _)
  have step1 : parseNumeric (some (String.mk ((c0 :: t1) ++ ',' :: l2))) =
      (if ((c0 :: t1) ++ ',' :: l2).isEmpty ∨ jsTrim ((c0 :: t1) ++ ',' :: l2) = ['-']
       then (none, [])
       else match parseFloatL (replaceFirstChar ',' '.' ((c0 :: t1) ++ ',' :: l2)) with
         | none => (none, [.warnParseFail (String.mk ((c0 :: t1) ++ ',' :: l2))])
         | some q => (some q, [])) := rfl
  have hcond : ¬ (((c0 :: t1) ++ ',' :: l2).isEmpty = true ∨
      jsTrim ((c0 :: t1) ++ ',' :: l2) = ['-']) := by
    rintro (he | ht)
    · rw [List.cons_append] at he
      exact absurd he (by simp [List.isEmpty])
    · have hm : '-' ∈ (c0 :: t1) ++ ',' :: l2 :=
        jsTrim_subset _ '-' (ht ▸ List.mem_cons_self '-' [])
      rcases List.mem_append.mp hm with hm | hm
      · exact absurd rfl (isDigit_facts '-' (hd1 '-' hm)).2.2.1
      · rcases List.mem_cons.mp hm with hm | hm
        · exact absurd hm (by decide)
        · exact absurd rfl (isDigit_facts '-' (hd2 '-' hm)).2.2.1
  rw [step1, if_neg hcond]
  have hcomma1 : ',' ∉ c0 :: t1 := fun hm => absurd rfl (isDigit_facts _ (hd1 _ hm)).2.1
  rw [replaceFirstChar_append ',' '.' (c0 :: t1) l2 hcomma1]
  have hpf : parseFloatL ((c0 :: t1) ++ '.' :: l2) =
      some ((digitsToNat (c0 :: t1) : ℚ) + (digitsToNat l2 : ℚ) / (10 : ℚ) ^ l2.length) := by
    have hws : ((c0 :: t1) ++ '.' :: l2).dropWhile Char.isWhitespace =
        (c0 :: t1) ++ '.' :: l2 := by
      rw [List.cons_append, List.dropWhile_cons, (isDigit_facts c0 hc0).2.2.2.2]
      simp
    unfold parseFloatL
    rw [hws]
    have hsign : signSplit ((c0 :: t1) ++ '.' :: l2) = (1, (c0 :: t1) ++ '.' :: l2) := by
      rw [List.cons_append]
      show (if c0 = '-' then ((-1 : ℚ), t1 ++ '.' :: l2)
        else if c0 = '+' then ((1 : ℚ), t1 ++ '.' :: l2)
        else ((1 : ℚ), c0 :: (t1 ++ '.' :: l2))) = (1, c0 :: (t1 ++ '.' :: l2))
      rw [if_neg (isDigit_facts c0 hc0).2.2.1, if_neg (isDigit_facts c0 hc0).2.2.2.1]
    have htake := takeWhile_append_stop (p := Char.isDigit) (c0 :: t1) '.' l2 hd1 (by decide)
    have hfrac : fracSplit ('.' :: l2) = (l2, []) := by
      show (if '.' = '.' then (l2.takeWhile Char.isDigit, l2.dropWhile Char.isDigit)
        else (([] : List Char), '.' :: l2)) = (l2, [])
      rw [if_pos rfl, (takeWhile_all l2 hd2).1, (takeWhile_all l2 hd2).2]
    unfold parseDecCore
    rw [hsign]
    simp only
    rw [htake.1, htake.2, hfrac]
    have hne : ¬ ((c0 :: t1).isEmpty = true ∧ (l2 : List Char).isEmpty = true) := by
      rintro ⟨ha, _⟩
      exact absurd ha (by simp [List.isEmpty])
    rw [if_neg hne]
    have hexp : expSplit ([] : List Char) = (0, []) := rfl
    rw [hexp]
    rw [one_mul, zpow_zero, mul_one]
    rfl
  rw [hpf]

/-! ## Claim C2: `WBTariffsSync.parseNumeric` -/

/-- **C2, counterexample.**  The empty string is a string (not absent) and is
not a lone dash, and it parses to `NaN`; the claim therefore requires absent
plus a warning.  The code's `!value` guard already catches `""` as JS-falsy
and returns absent with no warning. -/
theorem C2_counterexample :
    parseNumeric (some "") = (none, []) ∧
    (some "" : Option String) ≠ none ∧
    jsTrim ("" : String).toList ≠ ['-'] ∧
    parseFloatL (replaceFirstChar ',' '.' ("" : String).toList) = none := by
  exact ⟨by decide, fun h => Option.noConfusion h, by decide, by decide⟩

/-- **C2 (amended).**  `parseNumeric` returns absent without a warning for
absent input, for the empty string (JS-falsy, caught by the same `!value`
guard as absent input), and for any string whose trim is a lone dash; every
other string has its first comma replaced by a period and is parsed with
`parseFloat`: a valid comma-decimal digit string round-trips to the expected
rational with no warning (e.g. `"1234,56"` to `1234.56`), and when parsing
yields `NaN` the function emits a warning and returns absent.  The model is a
total function, reflecting that the source never throws. -/
theorem C2_parseNumeric_amended :
    parseNumeric none = (none, []) ∧
    parseNumeric (some "") = (none, []) ∧
    (∀ s : String, jsTrim s.toList = ['-'] → parseNumeric (some s) = (none, [])) ∧
    (∀ l1 l2 : List Char, l1 ≠ [] → l2 ≠ [] → (∀ c ∈ l1, c.isDigit = true) →
      (∀ c ∈ l2, c.isDigit = true) →
      parseNumeric (some (String.mk (l1 ++ ',' :: l2))) =
        (some ((digitsToNat l1 : ℚ) + (digitsToNat l2 : ℚ) / (10 : ℚ) ^ l2.length), [])) ∧
    parseNumeric (some "1234,56") = (some (1234.56 : ℚ), []) ∧
    (∀ s : String, s.toList ≠ [] → jsTrim s.toList ≠ ['-'] →
      parseFloatL (replaceFirstChar ',' '.' s.toList) = none →
      parseNumeric (some s) = (none, [.warnParseFail s])) ∧
    parseNumeric (some "abc") = (none, [.warnParseFail "abc"]) := by
  have step : ∀ s : String, parseNumeric (some s) =
      (if s.toList.isEmpty ∨ jsTrim s.toList = ['-'] then (none, [])
       else match parseFloatL (replaceFirstChar ',' '.' s.toList) with
         | none => (none, [.warnParseFail s])
         | some q => (some q, [])) := fun s => rfl
  refine ⟨rfl, by decide, ?_, parseNumeric_decimal, ?_, ?_, by decide⟩
  · intro s h
    rw [step, if_pos (Or.inr h)]
  · have h := parseNumeric_decimal ['1', '2', '3', '4'] ['5', '6']
      (by decide) (by decide) (by decide) (by decide)
    have hs : ("1234,56" : String) = String.mk (['1', '2', '3', '4'] ++ ',' :: ['5', '6']) := by
      decide
    have hv : (digitsToNat ['1', '2', '3', '4'] : ℚ) +
        (digitsToNat ['5', '6'] : ℚ) / (10 : ℚ) ^ (['5', '6'] : List Char).length =
        (1234.56 : ℚ) := by
      have e1 : digitsToNat ['1', '2', '3', '4'] = 1234 := by decide
      have e2 : digitsToNat ['5', '6'] = 56 := by decide
      rw [e1, e2]
      norm_num
    rw [hs, h, hv]
  · intro s hne hdash hpf
    have hcond : ¬ (s.toList.isEmpty = true ∨ jsTrim s.toList = ['-']) := by
      rintro (he | ht)
      · exact hne (List.isEmpty_iff.mp he)
      · exact hdash ht
    rw [step, if_neg hcond, hpf]

/-- **C2, witness.**  The amended round-trip conjunct applied to `"7,5"`. -/
theorem C2_witness :
    (['7'] : List Char) ≠ [] ∧ (['5'] : List Char) ≠ [] ∧
    (∀ c ∈ (['7'] : List Char), c.isDigit = true) ∧
    (∀ c ∈ (['5'] : List Char), c.isDigit = true) ∧
    parseNumeric (some (String.mk (['7'] ++ ',' :: ['5']))) =
      (some ((digitsToNat ['7'] : ℚ) +
        (digitsToNat ['5'] : ℚ) / (10 : ℚ) ^ (['5'] : List Char).length), []) :=
  ⟨by decide, by decide, by decide, by decide,
    C2_parseNumeric_amended.2.2.2.1 ['7'] ['5'] (by decide) (by decide) (by decide) (by decide)⟩

/-! ## Claim C3: malformed upstream payload -/

/-- **C3.**  When the upstream `warehouseList` is missing or not an array,
`WBTariffsSync.sync` performs zero database writes (the table is returned
unchanged, so every existing row is untouched), logs the invalid-format
warning, and returns normally (the model is a total function). -/
theorem C3_invalid_payload (db : List TariffRow) (today : JSDate) (now : ℕ) :
    wbSync db ApiPayload.notArray today now =
      (db, [WBLog.infoStart today, WBLog.warnInvalidFormat]) := rfl

/-! ## Claim C10: empty `warehouseList` -/

/-- **C10.**  An empty `warehouseList` array passes the `Array.isArray`
check: `sync` performs zero database writes, does not log the invalid-format
warning, and logs a count of 0 followed by successful completion. -/
theorem C10_empty_list (db : List TariffRow) (today : JSDate) (now : ℕ) :
    wbSync db (ApiPayload.list []) today now =
      (db, [WBLog.infoStart today, WBLog.infoFound 0, WBLog.infoCompleted]) ∧
    WBLog.warnInvalidFormat ∉ (wbSync db (ApiPayload.list []) today now).2 := by
  refine ⟨rfl, ?_⟩
  show WBLog.warnInvalidFormat ∉ [WBLog.infoStart today, WBLog.infoFound 0, WBLog.infoCompleted]
  simp

/-! ## Helper lemmas: upsert semantics -/

theorem keyMatch_iff (r x : TariffRow) : keyMatch r x = true ↔ rowKey x = rowKey r := by
  simp [keyMatch]

theorem map_key_replace (db : List TariffRow) (r : TariffRow) :
    ((db.map fun x => if keyMatch r x then r else x).map rowKey) = db.map rowKey := by
  rw [List.map_map]
  apply List.map_congr_left
  intro x _
  show rowKey (if keyMatch r x then r else x) = rowKey x
  by_cases hk : keyMatch r x = true
  · rw [if_pos hk]
    exact ((keyMatch_iff r x).mp hk).symm
  · rw [if_neg hk]

theorem upsertRow_nodup (db : List TariffRow) (r : TariffRow) (h : KeysDistinct db) :
    KeysDistinct (upsertRow db r) := by
  unfold upsertRow
  by_cases hany : db.any (keyMatch r) = true
  · rw [if_pos hany]
    unfold KeysDistinct
    rw [map_key_replace]
    exact h
  · rw [if_neg hany]
    unfold KeysDistinct
    rw [List.map_append]
    rw [List.nodup_append]
    refine ⟨h, List.nodup_singleton _, ?_⟩
    intro k hk hk1
    rcases List.mem_map.mp hk with ⟨x, hx, rfl⟩
    have hkr : rowKey x = rowKey r := List.mem_singleton.mp hk1
    have hfalse := List.any_eq_false.mp (Bool.eq_false_iff.mpr (fun hb => hany hb)) x hx
    exact hfalse ((keyMatch_iff r x).mpr hkr)

theorem upsertRow_key_mem (db : List TariffRow) (r x : TariffRow) (hx : x ∈ db) :
    ∃ y ∈ upsertRow db r, rowKey y = rowKey x := by
  unfold upsertRow
  by_cases hany : db.any (keyMatch r) = true
  · rw [if_pos hany]
    refine ⟨if keyMatch r x then r else x, List.mem_map_of_mem _ hx, ?_⟩
    by_cases hk : keyMatch r x = true
    · rw [if_pos hk]
      exact ((keyMatch_iff r x).mp hk).symm
    · rw [if_neg hk]
  · rw [if_neg hany]
    exact ⟨x, List.mem_append_left _ hx, rfl⟩

theorem foldl_upsert_nodup (ts : List TariffRow) :
    ∀ db, KeysDistinct db → KeysDistinct (ts.foldl upsertRow db) := by
  induction ts with
  | nil => exact fun db h => h
  | cons t ts ih => exact fun db h => ih (upsertRow db t) (upsertRow_nodup db t h)

theorem foldl_upsert_key_mem (ts : List TariffRow) :
    ∀ db x, x ∈ db → ∃ y ∈ ts.foldl upsertRow db, rowKey y = rowKey x := by
  induction ts with
  | nil => exact fun db x hx => ⟨x, hx, rfl⟩
  | cons t ts ih =>
    intro db x hx
    obtain ⟨y1, hy1, hk1⟩ := upsertRow_key_mem db t x hx
    obtain ⟨y2, hy2, hk2⟩ := ih (upsertRow db t) y1 hy1
    exact ⟨y2, hy2, hk2.trans hk1⟩

theorem chunksAux_flatten : ∀ (f : ℕ) (l : List TariffRow), l.length ≤ f →
    (chunksAux f l).flatten = l := by
  intro f
  induction f with
  | zero =>
    intro l h
    cases l with
    | nil => rfl
    | cons c t => exact absurd h (by simp)
  | succ f ih =>
    intro l h
    cases l with
    | nil => rfl
    | cons c t =>
      show ((c :: t).take 100 :: chunksAux f ((c :: t).drop 100)).flatten = c :: t
      rw [List.flatten_cons, ih ((c :: t).drop 100) ?_, List.take_append_drop]
      simp only [List.length_drop, List.length_cons]
      simp only [List.length_cons] at h
      omega

theorem chunks100_flatten (l : List TariffRow) : (chunks100 l).flatten = l :=
  chunksAux_flatten l.length l le_rfl

theorem applyChunks_eq (db ts : List TariffRow) : applyChunks db ts = ts.foldl upsertRow db := by
  unfold applyChunks
  have hgen : ∀ (cs : List (List TariffRow)) (d : List TariffRow),
      cs.foldl (fun d c => c.foldl upsertRow d) d = cs.flatten.foldl upsertRow d := by
    intro cs
    induction cs with
    | nil => exact fun d => rfl
    | cons c cs ih =>
      intro d
      show cs.foldl (fun d c => c.foldl upsertRow d) (c.foldl upsertRow d) =
        (c ++ cs.flatten).foldl upsertRow d
      rw [List.foldl_append]
      exact ih _
  rw [hgen, chunks100_flatten]

theorem filter_keyMatch_nil (r : TariffRow) :
    ∀ t : List TariffRow, (∀ x ∈ t, keyMatch r x = false) →
      ((t.map fun x => if keyMatch r x then r else x).filter (keyMatch r)) = [] := by
  intro t
  induction t with
  | nil => exact fun _ => rfl
  | cons a t ih =>
    intro h
    have ha : keyMatch r a = false := h a (List.mem_cons_self a t)
    rw [List.map_cons, if_neg (Bool.eq_false_iff.mp ha), List.filter_cons, ha]
    exact ih fun x hx => h x (List.mem_cons_of_mem a hx)

theorem upsertRow_filter (db : List TariffRow) (r : TariffRow) (h : KeysDistinct db) :
    (upsertRow db r).filter (keyMatch r) = [r] := by
  have hrr : keyMatch r r = true := (keyMatch_iff r r).mpr rfl
  unfold upsertRow
  by_cases hany : db.any (keyMatch r) = true
  · rw [if_pos hany]
    induction db with
    | nil => exact absurd hany (by simp)
    | cons a t ih =>
      have hnd : (rowKey a ∉ t.map rowKey) ∧ KeysDistinct t := by
        unfold KeysDistinct at h
        rw [List.map_cons, List.nodup_cons] at h
        exact h
      by_cases hk : keyMatch r a = true
      · rw [List.map_cons, if_pos hk, List.filter_cons, hrr]
        have hnone : ∀ x ∈ t, keyMatch r x = false := by
          intro x hx
          rw [Bool.eq_false_iff]
          intro hb
          have h1 : rowKey x = rowKey r := (keyMatch_iff r x).mp hb
          have h2 : rowKey a = rowKey r := (keyMatch_iff r a).mp hk
          exact hnd.1 (h1.trans h2.symm ▸ List.mem_map_of_mem rowKey hx)
        rw [filter_keyMatch_nil r t hnone]
        simp
      · rw [List.map_cons, if_neg (Bool.eq_false_iff.mp (Bool.not_eq_true _ ▸ hk)), List.filter_cons]
        have hkf : keyMatch r a = false := Bool.eq_false_iff.mpr hk
        rw [hkf]
        have hany2 : t.any (keyMatch r) = true := by
          rcases List.any_eq_true.mp hany with ⟨x, hx, hxk⟩
          rcases List.mem_cons.mp hx with rfl | hx
          · exact absurd hxk hk
          · exact List.any_eq_true.mpr ⟨x, hx, hxk⟩
        exact ih hnd.2 hany2
  · rw [if_neg hany]
    rw [List.filter_append]
    have h1 : db.filter (keyMatch r) = [] := by
      rw [List.filter_eq_nil_iff]
      intro x hx
      exact List.any_eq_false.mp (Bool.eq_false_iff.mpr (fun hb => hany hb)) x hx
    rw [h1, List.nil_append, List.filter_cons, hrr]
    rfl

/-! ## Claim C6: the `(warehouse_name, date)` uniqueness invariant -/

/-- **C6.**  Starting from a table satisfying the unique-key invariant:
every WB sync preserves the invariant (at most one row per
`(warehouse_name, date)` pair) and never deletes a row (every key present
before is present after — rows are only inserted or merged; the publisher
only reads).  Upserting the same pair twice leaves exactly one row for the
pair, carrying the second upsert's values, and when the second sync's clock
is strictly later, the remaining row's `updated_at` is strictly greater than
the first. -/
theorem C6_unique_upsert (db : List TariffRow) (hdb : KeysDistinct db) :
    (∀ (payload : ApiPayload) (today : JSDate) (now : ℕ),
      KeysDistinct (wbSync db payload today now).1 ∧
      ∀ x ∈ db, ∃ y ∈ (wbSync db payload today now).1, rowKey y = rowKey x) ∧
    (∀ r1 r2 : TariffRow, rowKey r1 = rowKey r2 →
      (upsertRow (upsertRow db r1) r2).filter (keyMatch r2) = [r2] ∧
      (r1.updated_at < r2.updated_at →
        ∀ x ∈ upsertRow (upsertRow db r1) r2, rowKey x = rowKey r2 →
          r1.updated_at < x.updated_at)) := by
  constructor
  · intro payload today now
    cases payload with
    | notArray => exact ⟨hdb, fun x hx => ⟨x, hx, rfl⟩⟩
    | list ws =>
      have h1 : (wbSync db (.list ws) today now).1 =
          ((ws.map (rawToTariff today now)).map Prod.fst).foldl upsertRow db :=
        applyChunks_eq db _
      rw [h1]
      exact ⟨foldl_upsert_nodup _ db hdb, fun x hx => foldl_upsert_key_mem _ db x hx⟩
  · intro r1 r2 _
    have hd1 : KeysDistinct (upsertRow db r1) := upsertRow_nodup db r1 hdb
    have hf : (upsertRow (upsertRow db r1) r2).filter (keyMatch r2) = [r2] :=
      upsertRow_filter _ r2 hd1
    refine ⟨hf, fun ht x hx hkey => ?_⟩
    have hmem : x ∈ (upsertRow (upsertRow db r1) r2).filter (keyMatch r2) :=
      List.mem_filter.mpr ⟨hx, (keyMatch_iff r2 x).mpr hkey⟩
    rw [hf] at hmem
    rw [List.mem_singleton.mp hmem]
    exact ht

/-- Concrete rows for the C6 witness: same key, different values, later clock. -/
def sampleRow1 : TariffRow :=
  { warehouse_name := "Tula", date := ⟨2024, 2, 5⟩, delivery_and_storage_expr := none,
    delivery_base := none, delivery_liter := none, storage_base := none,
    storage_liter := none, updated_at := 1 }

/-- The second upsert of the same pair: a changed money value and a later
clock. -/
def sampleRow2 : TariffRow :=
  { sampleRow1 with delivery_base := some 5, updated_at := 2 }

/-- **C6, witness.**  The double-upsert conjunct applied on the empty table
with two concrete rows of equal key. -/
theorem C6_witness :
    KeysDistinct ([] : List TariffRow) ∧ rowKey sampleRow1 = rowKey sampleRow2 ∧
    (upsertRow (upsertRow [] sampleRow1) sampleRow2).filter (keyMatch sampleRow2) =
      [sampleRow2] :=
  ⟨by decide, by decide,
    ((C6_unique_upsert [] (by decide)).2 sampleRow1 sampleRow2 (by decide)).1⟩

/-! ## Claim C5: the published grid -/

/-- **C5.**  In every successful publisher attempt the records are read
ordered ascending by `delivery_liter` (the read is a sorted permutation of
the table), and the grid passed to the sheet update is the fixed 7-column
header row followed by exactly one 7-cell `rowCells` row per record, in the
source's fixed column order; for `n` records the grid has `n + 1` rows. -/
theorem C5_grid (db : List TariffRow) :
    List.Sorted literLe (getTariffData db) ∧
    (getTariffData db).Perm db ∧
    attemptGrid db = headerRow :: (getTariffData db).map rowCells ∧
    (attemptGrid db).length = db.length + 1 ∧
    headerRow.length = 7 ∧
    ∀ r : TariffRow, (rowCells r).length = 7 := by
  refine ⟨List.sorted_insertionSort literLe db, List.perm_insertionSort literLe db, rfl, ?_,
    rfl, fun r => rfl⟩
  show (headerRow :: (getTariffData db).map rowCells).length = db.length + 1
  have hp : (getTariffData db).length = db.length := (List.perm_insertionSort literLe db).length_eq
  rw [List.length_cons, List.length_map, hp]

/-! ## Helper lemmas: the retry loop -/

theorem attemptSpan_le (o : ℕ → Bool) : ∀ (r a : ℕ), attemptSpan o a r ≤ r := by
  intro r
  induction r with
  | zero => exact fun a => le_refl 0
  | succ r ih =>
    intro a
    unfold attemptSpan
    by_cases h : o a = true
    · rw [if_pos h]; omega
    · rw [if_neg h]
      have := ih (a + 1)
      omega

theorem attemptSpan_pos (o : ℕ → Bool) (r a : ℕ) (h : 0 < r) : 1 ≤ attemptSpan o a r := by
  cases r with
  | zero => exact absurd h (lt_irrefl 0)
  | succ r =>
    unfold attemptSpan
    by_cases ho : o a = true
    · rw [if_pos ho]
    · rw [if_neg ho]; omega

theorem attemptSpan_succ (o : ℕ → Bool) (a r : ℕ) :
    attemptSpan o a (r + 1) = if o a = true then 1 else 1 + attemptSpan o (a + 1) r := rfl

theorem syncGo_attempts (o : ℕ → Bool) : ∀ r a,
    attemptsOf (syncGo o a r) = List.range' a (attemptSpan o a r) := by
  intro r
  induction r with
  | zero => exact fun a => rfl
  | succ r ih =>
    intro a
    unfold syncGo attemptSpan
    by_cases h : o a = true
    · rw [if_pos h, if_pos h]
      rfl
    · rw [if_neg h, if_neg h]
      cases r with
      | zero => rfl
      | succ k =>
        have hx : attemptsOf ([PubEvent.attemptRun a, PubEvent.logAttemptFail a] ++
            ([PubEvent.logRetry, PubEvent.sleepMs (1000 * 2 ^ a)] ++ syncGo o (a + 1) (k + 1))) =
            a :: attemptsOf (syncGo o (a + 1) (k + 1)) := by
          unfold attemptsOf
          rw [List.filterMap_append, List.filterMap_append]
          rfl
        rw [if_neg (show ¬(k + 1 = 0) from Nat.succ_ne_zero k), hx, ih (a + 1)]
        rw [Nat.add_comm 1 (attemptSpan o (a + 1) (k + 1)), List.range'_succ]

theorem syncGo_sleeps (o : ℕ → Bool) : ∀ r a,
    sleepsOf (syncGo o a r) =
      (List.range' a (attemptSpan o a r - 1)).map (fun i => 1000 * 2 ^ i) := by
  intro r
  induction r with
  | zero => exact fun a => rfl
  | succ r ih =>
    intro a
    unfold syncGo attemptSpan
    by_cases h : o a = true
    · rw [if_pos h, if_pos h]
      rfl
    · rw [if_neg h, if_neg h]
      cases r with
      | zero => rfl
      | succ k =>
        have hx : sleepsOf ([PubEvent.attemptRun a, PubEvent.logAttemptFail a] ++
            ([PubEvent.logRetry, PubEvent.sleepMs (1000 * 2 ^ a)] ++ syncGo o (a + 1) (k + 1))) =
            1000 * 2 ^ a :: sleepsOf (syncGo o (a + 1) (k + 1)) := by
          unfold sleepsOf
          rw [List.filterMap_append, List.filterMap_append]
          rfl
        rw [if_neg (show ¬(k + 1 = 0) from Nat.succ_ne_zero k), hx, ih (a + 1)]
        have hpos : 1 ≤ attemptSpan o (a + 1) (k + 1) :=
          attemptSpan_pos o (k + 1) (a + 1) (Nat.succ_pos k)
        have hself : 1 + attemptSpan o (a + 1) (k + 1) - 1 =
            (attemptSpan o (a + 1) (k + 1) - 1) + 1 := by omega
        rw [hself, List.range'_succ, List.map_cons]

theorem syncGo_stop_at_success (o : ℕ → Bool) : ∀ r a,
    ∀ j ∈ attemptsOf (syncGo o a r), ∀ i, a ≤ i → i < j → o i = false := by
  intro r
  induction r with
  | zero =>
    intro a j hj
    rw [syncGo_attempts] at hj
    exact absurd hj (by simp [attemptSpan])
  | succ r ih =>
    intro a j hj i hai hij
    by_cases h : o a = true
    · rw [syncGo_attempts] at hj
      rw [attemptSpan_succ, if_pos h] at hj
      have := List.mem_range'_1.mp hj
      omega
    · by_cases hia : i = a
      · subst hia
        exact Bool.eq_false_iff.mpr h
      · have hi1 : a + 1 ≤ i := by omega
        cases r with
        | zero =>
          rw [syncGo_attempts] at hj
          rw [attemptSpan_succ, if_neg h] at hj
          have := List.mem_range'_1.mp hj
          have hz : attemptSpan o (a + 1) 0 = 0 := rfl
          omega
        | succ k =>
          apply ih (a + 1) j ?_ i hi1 hij
          rw [syncGo_attempts] at hj ⊢
          rw [attemptSpan_succ, if_neg h] at hj
          have hm := List.mem_range'_1.mp hj
          exact List.mem_range'_1.mpr (by omega)

theorem syncGo_allfail (o : ℕ → Bool) : ∀ r a, (∀ i, a ≤ i → i < a + r → o i = false) →
    0 < r → PubEvent.logTerminal ∈ syncGo o a r ∧ attemptSpan o a r = r := by
  intro r
  induction r with
  | zero => intro a _ h; exact absurd h (lt_irrefl 0)
  | succ r ih =>
    intro a h _
    have ha : ¬ o a = true := by
      rw [h a le_rfl (by omega)]
      exact Bool.false_ne_true
    unfold syncGo attemptSpan
    rw [if_neg ha, if_neg ha]
    cases r with
    | zero => exact ⟨by simp, rfl⟩
    | succ k =>
      have hr := ih (a + 1) (fun i h1 h2 => h i (by omega) (by omega)) (Nat.succ_pos k)
      constructor
      · exact List.mem_append_right _ (List.mem_append_right _ hr.1)
      · omega

theorem sleeps_pairwise (o : ℕ → Bool) (r a : ℕ) :
    (sleepsOf (syncGo o a r)).Pairwise (· < ·) := by
  rw [syncGo_sleeps]
  rw [List.pairwise_map]
  apply List.Pairwise.imp ?_ (List.pairwise_lt_range' a (attemptSpan o a r - 1) 1)
  intro i j hij
  have h2 : (2 : ℕ) ^ i < 2 ^ j := Nat.pow_lt_pow_right (by norm_num) hij
  omega

/-! ## Claim C4: the retry loop of `TariffSheetSyncService.sync` -/

/-- The behaviour C4 asserts of one `sync` run with retry bound `m` and
per-attempt outcomes `o`: the attempts performed are `1, 2, ...`, at most
`m` of them and at least one; the sleeps are exactly `1000 * 2 ^ i`
milliseconds after each non-final failed attempt `i`, hence strictly
increasing; an attempt `j` only happens when every earlier attempt failed
(so nothing follows the first success); and when every allowed attempt
fails, the terminal failure is logged and the run still produces a plain
trace (the loop never throws past its boundary). -/
def RetryContract (m : ℤ) (o : ℕ → Bool) : Prop :=
  attemptsOf (pubSync m o) = List.range' 1 (attemptSpan o 1 m.toNat) ∧
  attemptSpan o 1 m.toNat ≤ m.toNat ∧
  1 ≤ attemptSpan o 1 m.toNat ∧
  sleepsOf (pubSync m o) =
    (List.range' 1 (attemptSpan o 1 m.toNat - 1)).map (fun i => 1000 * 2 ^ i) ∧
  (sleepsOf (pubSync m o)).Pairwise (· < ·) ∧
  (∀ j ∈ attemptsOf (pubSync m o), ∀ i, 1 ≤ i → i < j → o i = false) ∧
  ((∀ i, 1 ≤ i → i ≤ m.toNat → o i = false) →
    PubEvent.logTerminal ∈ pubSync m o ∧ attemptSpan o 1 m.toNat = m.toNat)

/-- **C4.**  For every `maxRetries ≥ 1` and every outcome sequence, the
publisher's retry loop satisfies `RetryContract`. -/
theorem C4_retry (m : ℤ) (o : ℕ → Bool) (hm : 1 ≤ m) : RetryContract m o := by
  have hr : 0 < m.toNat := by omega
  unfold RetryContract pubSync
  refine ⟨syncGo_attempts o m.toNat 1, attemptSpan_le o m.toNat 1,
    attemptSpan_pos o m.toNat 1 hr, syncGo_sleeps o m.toNat 1,
    sleeps_pairwise o m.toNat 1, syncGo_stop_at_success o m.toNat 1, ?_⟩
  intro hfail
  exact syncGo_allfail o m.toNat 1 (fun i h1 h2 => hfail i h1 (by omega)) hr

/-- **C4, witness.**  `maxRetries = 3`, attempts 1 and 2 fail, attempt 3
succeeds — the spec's forced-failure scenario. -/
theorem C4_witness : (1 : ℤ) ≤ 3 ∧ RetryContract 3 (fun i => i == 3) :=
  ⟨by decide, C4_retry 3 (fun i => i == 3) (by decide)⟩

/-! ## Claim C9: `maxRetries < 1` -/

/-- **C9.**  With `maxRetries < 1` the loop condition `attempt <= maxRetries`
fails immediately: no attempt of the read-format-clear-write sequence runs
and nothing is logged — the trace is empty. -/
theorem C9_no_attempts (m : ℤ) (o : ℕ → Bool) (hm : m < 1) : pubSync m o = [] := by
  unfold pubSync
  have h : m.toNat = 0 := by omega
  rw [h]
  rfl

/-- **C9, witness.**  `maxRetries = 0` performs no attempt even when every
attempt would succeed. -/
theorem C9_witness : (0 : ℤ) < 1 ∧ pubSync 0 (fun _ => true) = [] :=
  ⟨by decide, C9_no_attempts 0 (fun _ => true) (by decide)⟩

/-! ## Claim C7: `TariffSheetSyncService.formatDate` -/

theorem padStart2_length (l : List Char) (h : l.length ≤ 2) : (padStart2 l).length = 2 := by
  unfold padStart2
  by_cases hl : l.length < 2
  · rw [if_pos hl]
    simp only [List.length_append, List.length_replicate]
    omega
  · rw [if_neg hl]
    omega

/-- **C7.**  `formatDate` returns absent for absent input; a date whose local
calendar fields are 2024-03-05 renders as `"05.03.2024"`; and for every date
with day and month in calendar range and a four-digit year the rendering is
the fixed-width, zero-padded `DD.MM.YYYY` form — ten characters. -/
theorem C7_formatDate :
    formatDate none = none ∧
    formatDate (some ⟨2024, 2, 5⟩) = some "05.03.2024" ∧
    (∀ d : JSDate, d.getDate ≤ 31 → d.getMonth ≤ 11 →
      1000 ≤ d.getFullYear → d.getFullYear ≤ 9999 →
      ∃ s, formatDate (some d) = some s ∧ s.length = 10) := by
  refine ⟨rfl, by decide, ?_⟩
  intro d h1 h2 h3 h4
  refine ⟨_, rfl, ?_⟩
  show (String.mk (padStart2 (natChars d.getDate) ++
    '.' :: padStart2 (natChars (d.getMonth + 1)) ++ '.' :: natChars d.getFullYear)).length = 10
  rw [String.length_mk]
  have hd : (padStart2 (natChars d.getDate)).length = 2 :=
    padStart2_length _ (natChars_length_le _ 2 (by norm_num) (by omega))
  have hm : (padStart2 (natChars (d.getMonth + 1))).length = 2 :=
    padStart2_length _ (natChars_length_le _ 2 (by norm_num) (by omega))
  have hy : (natChars d.getFullYear).length = 4 := natChars_length_year _ h3 h4
  simp only [List.length_append, List.length_cons]
  omega

/-- **C7, witness.**  The fixed-width conjunct applied at 2024-03-05. -/
theorem C7_witness :
    ((5 : ℕ) ≤ 31 ∧ (2 : ℕ) ≤ 11 ∧ (1000 : ℕ) ≤ 2024 ∧ (2024 : ℕ) ≤ 9999) ∧
    ∃ s, formatDate (some ⟨2024, 2, 5⟩) = some s ∧ s.length = 10 :=
  ⟨by decide, C7_formatDate.2.2 ⟨2024, 2, 5⟩ (by decide) (by decide) (by decide) (by decide)⟩

/-! ## Helper lemmas: the cron cycle -/

theorem pubIdsOf_append (t1 t2 : List CronEvent) :
    pubIdsOf (t1 ++ t2) = pubIdsOf t1 ++ pubIdsOf t2 := by
  unfold pubIdsOf
  rw [List.filterMap_append]

theorem pubsBody_ids (pub : String → Except String Unit) :
    ∀ ids : List String, ∃ k, pubIdsOf (pubsBody pub ids).1 = ids.take k ∧
      ((pubsBody pub ids).2 = none → pubIdsOf (pubsBody pub ids).1 = ids) := by
  intro ids
  induction ids with
  | nil => exact ⟨0, rfl, fun _ => rfl⟩
  | cons id rest ih =>
    obtain ⟨k, hk, hnone⟩ := ih
    cases hp : pub id with
    | error e =>
      have h1 : pubsBody pub (id :: rest) = ([.pubStart id], some e) := by
        simp [pubsBody, hp]
      refine ⟨1, ?_, ?_⟩
      · rw [h1]
        show pubIdsOf [CronEvent.pubStart id] = (id :: rest).take 1
        show [id] = id :: rest.take 0
        rw [List.take_zero]
      · rw [h1]
        intro h
        exact absurd h (by simp)
    | ok u =>
      cases u
      have h1 : pubsBody pub (id :: rest) =
          (.pubStart id :: .pubOk id :: (pubsBody pub rest).1, (pubsBody pub rest).2) := by
        simp [pubsBody, hp]
      have hcons : pubIdsOf (CronEvent.pubStart id :: CronEvent.pubOk id ::
          (pubsBody pub rest).1) = id :: pubIdsOf (pubsBody pub rest).1 := rfl
      refine ⟨k + 1, ?_, ?_⟩
      · rw [h1]
        show pubIdsOf (CronEvent.pubStart id :: CronEvent.pubOk id ::
          (pubsBody pub rest).1) = (id :: rest).take (k + 1)
        rw [hcons, hk]
        rfl
      · rw [h1]
        intro h
        show pubIdsOf (CronEvent.pubStart id :: CronEvent.pubOk id ::
          (pubsBody pub rest).1) = id :: rest
        rw [hcons, hnone h]

theorem pubsBody_all_ok (pub : String → Except String Unit) :
    ∀ ids : List String, (∀ id ∈ ids, pub id = .ok ()) → (pubsBody pub ids).2 = none := by
  intro ids
  induction ids with
  | nil => exact fun _ => rfl
  | cons id rest ih =>
    intro h
    have hp : pub id = .ok () := h id (List.mem_cons_self id rest)
    have h1 : pubsBody pub (id :: rest) =
        (.pubStart id :: .pubOk id :: (pubsBody pub rest).1, (pubsBody pub rest).2) := by
      simp [pubsBody, hp]
    rw [h1]
    exact ih fun x hx => h x (List.mem_cons_of_mem id hx)

theorem pubsBody_no_logerr (pub : String → Except String Unit) :
    ∀ ids : List String, CronEvent.logCronError ∉ (pubsBody pub ids).1 := by
  intro ids
  induction ids with
  | nil => simp [pubsBody]
  | cons id rest ih =>
    cases hp : pub id with
    | error e =>
      have h1 : pubsBody pub (id :: rest) = ([.pubStart id], some e) := by
        simp [pubsBody, hp]
      rw [h1]
      simp
    | ok u =>
      cases u
      have h1 : pubsBody pub (id :: rest) =
          (.pubStart id :: .pubOk id :: (pubsBody pub rest).1, (pubsBody pub rest).2) := by
        simp [pubsBody, hp]
      rw [h1]
      intro hm
      rcases List.mem_cons.mp hm with h | hm2
      · exact CronEvent.noConfusion h
      · rcases List.mem_cons.mp hm2 with h | hm3
        · exact CronEvent.noConfusion h
        · exact ih hm3

/-! ## Claim C8: the hourly cron cycle -/

/-- **C8.**  On every firing of the hourly callback: (1) if any publisher
starts, the fetcher's `sync` had already run to completion — the trace begins
with the fetch events and every publisher start lies strictly after them;
(2) the publishers started form a prefix of the configured spreadsheet-id
list, in the configured order, and when the fetch and every publisher return
normally that prefix is the whole list; (3) any error escaping the body is
caught: the callback returns a plain trace ending with the cron-error log;
and (4) when nothing escapes, no cron-error is logged.  The callback is a
total function, so no cycle failure ever propagates to the scheduler. -/
theorem C8_cron_cycle (ids : List String) (fetch : Except String Unit)
    (pub : String → Except String Unit) :
    (∀ id : String, CronEvent.pubStart id ∈ runCycle ids fetch pub →
      ∃ t, runCycle ids fetch pub =
        CronEvent.logCycleStart :: CronEvent.fetchStart :: CronEvent.fetchOk ::
          CronEvent.logFetched :: t ∧ CronEvent.pubStart id ∈ t) ∧
    (∃ k, pubIdsOf (runCycle ids fetch pub) = ids.take k ∧
      ((fetch = .ok () ∧ ∀ id ∈ ids, pub id = .ok ()) →
        pubIdsOf (runCycle ids fetch pub) = ids)) ∧
    (∀ e, (cycleBody ids fetch pub).2 = some e →
      runCycle ids fetch pub = (cycleBody ids fetch pub).1 ++ [CronEvent.logCronError]) ∧
    ((cycleBody ids fetch pub).2 = none →
      CronEvent.logCronError ∉ runCycle ids fetch pub) := by
  have hrun : ∀ t r, cycleBody ids fetch pub = (t, r) →
      runCycle ids fetch pub = (match r with
        | none => t
        | some _ => t ++ [CronEvent.logCronError]) := by
    intro t r hcb
    unfold runCycle
    rw [hcb]
    cases r with
    | none => rfl
    | some e => rfl
  refine ⟨?_, ?_, ?_, ?_⟩
  · intro id hmem
    cases fetch with
    | error e =>
      exfalso
      have ht : runCycle ids (.error e) pub = [.logCycleStart, .fetchStart, .logCronError] :=
        hrun _ (some e) rfl
      rw [ht] at hmem
      rcases List.mem_cons.mp hmem with h | hmem2
      · exact CronEvent.noConfusion h
      · rcases List.mem_cons.mp hmem2 with h | hmem3
        · exact CronEvent.noConfusion h
        · rcases List.mem_cons.mp hmem3 with h | hmem4
          · exact CronEvent.noConfusion h
          · exact absurd hmem4 (List.not_mem_nil _)
    | ok u =>
      cases u
      have hcb : cycleBody ids (.ok ()) pub =
          ([.logCycleStart, .fetchStart, .fetchOk, .logFetched] ++ (pubsBody pub ids).1,
            (pubsBody pub ids).2) := rfl
      cases hq : (pubsBody pub ids).2 with
      | none =>
        have ht : runCycle ids (.ok ()) pub =
            CronEvent.logCycleStart :: CronEvent.fetchStart :: CronEvent.fetchOk ::
              CronEvent.logFetched :: (pubsBody pub ids).1 := by
          have := hrun _ _ (hq ▸ hcb)
          rw [this]
          rfl
        refine ⟨(pubsBody pub ids).1, ht, ?_⟩
        rw [ht] at hmem
        rcases List.mem_cons.mp hmem with h | hmem2
        · exact absurd h (fun h => CronEvent.noConfusion h)
        · rcases List.mem_cons.mp hmem2 with h | hmem3
          · exact absurd h (fun h => CronEvent.noConfusion h)
          · rcases List.mem_cons.mp hmem3 with h | hmem4
            · exact absurd h (fun h => CronEvent.noConfusion h)
            · rcases List.mem_cons.mp hmem4 with h | hmem5
              · exact absurd h (fun h => CronEvent.noConfusion h)
              · exact hmem5
      | some e =>
        have ht : runCycle ids (.ok ()) pub =
            CronEvent.logCycleStart :: CronEvent.fetchStart :: CronEvent.fetchOk ::
              CronEvent.logFetched :: ((pubsBody pub ids).1 ++ [CronEvent.logCronError]) := by
          have := hrun _ _ (hq ▸ hcb)
          rw [this]
          rfl
        refine ⟨(pubsBody pub ids).1 ++ [CronEvent.logCronError], ht, ?_⟩
        rw [ht] at hmem
        rcases List.mem_cons.mp hmem with h | hmem2
        · exact absurd h (fun h => CronEvent.noConfusion h)
        · rcases List.mem_cons.mp hmem2 with h | hmem3
          · exact absurd h (fun h => CronEvent.noConfusion h)
          · rcases List.mem_cons.mp hmem3 with h | hmem4
            · exact absurd h (fun h => CronEvent.noConfusion h)
            · rcases List.mem_cons.mp hmem4 with h | hmem5
              · exact absurd h (fun h => CronEvent.noConfusion h)
              · exact hmem5
  · obtain ⟨k, hk, hknone⟩ := pubsBody_ids pub ids
    cases fetch with
    | error e =>
      have ht : runCycle ids (.error e) pub = [.logCycleStart, .fetchStart, .logCronError] :=
        hrun _ (some e) rfl
      refine ⟨0, ?_, ?_⟩
      · rw [ht, List.take_zero]
        rfl
      · rintro ⟨hfo, _⟩
        exact Except.noConfusion hfo
    | ok u =>
      cases u
      have hcb : cycleBody ids (.ok ()) pub =
          ([.logCycleStart, .fetchStart, .fetchOk, .logFetched] ++ (pubsBody pub ids).1,
            (pubsBody pub ids).2) := rfl
      have hpub : pubIdsOf (runCycle ids (.ok ()) pub) = pubIdsOf (pubsBody pub ids).1 := by
        cases hq : (pubsBody pub ids).2 with
        | none =>
          rw [hrun _ _ (hq ▸ hcb), pubIdsOf_append]
          rfl
        | some e =>
          rw [hrun _ _ (hq ▸ hcb)]
          show pubIdsOf (([CronEvent.logCycleStart, CronEvent.fetchStart, CronEvent.fetchOk,
            CronEvent.logFetched] ++ (pubsBody pub ids).1) ++ [CronEvent.logCronError]) = _
          rw [pubIdsOf_append, pubIdsOf_append]
          show ([] ++ pubIdsOf (pubsBody pub ids).1) ++ [] = _
          rw [List.nil_append, List.append_nil]
      refine ⟨k, ?_, ?_⟩
      · rw [hpub, hk]
      · rintro ⟨_, hall⟩
        rw [hpub]
        exact hknone (pubsBody_all_ok pub ids hall)
  · intro e he
    rcases hcb : cycleBody ids fetch pub with ⟨t, r⟩
    rw [hcb] at he
    have hr : r = some e := he
    subst hr
    rw [hrun t (some e) hcb]
  · intro hnone
    rcases hcb : cycleBody ids fetch pub with ⟨t, r⟩
    rw [hcb] at hnone
    have hr : r = none := hnone
    subst hr
    rw [hrun t none hcb]
    show CronEvent.logCronError ∉ t
    cases fetch with
    | error e =>
      exfalso
      have hce : cycleBody ids (.error e) pub = ([.logCycleStart, .fetchStart], some e) := rfl
      rw [hce] at hcb
      have := ((Prod.mk.injEq _ _ _ _).mp hcb).2
      exact Option.noConfusion this
    | ok u =>
      cases u
      have hcb2 : cycleBody ids (.ok ()) pub =
          ([.logCycleStart, .fetchStart, .fetchOk, .logFetched] ++ (pubsBody pub ids).1,
            (pubsBody pub ids).2) := rfl
      rw [hcb2] at hcb
      have ht : t = [.logCycleStart, .fetchStart, .fetchOk, .logFetched] ++
          (pubsBody pub ids).1 := ((Prod.mk.injEq _ _ _ _).mp hcb).1.symm
      rw [ht]
      intro hm
      rcases List.mem_append.mp hm with h | h
      · simp at h
      · exact pubsBody_no_logerr pub ids h

/-- **C8, witness.**  A clean cycle over two spreadsheet ids publishes both
ids in order. -/
theorem C8_witness :
    ((Except.ok () : Except String Unit) = Except.ok () ∧
      ∀ id ∈ (["s1", "s2"] : List String),
        (fun _ : String => (Except.ok () : Except String Unit)) id = Except.ok ()) ∧
    pubIdsOf (runCycle ["s1", "s2"] (Except.ok ()) (fun _ => Except.ok ())) = ["s1", "s2"] := by
  refine ⟨⟨rfl, fun id _ => rfl⟩, ?_⟩
  obtain ⟨k, hk, himp⟩ :=
    (C8_cron_cycle ["s1", "s2"] (Except.ok ()) (fun _ => Except.ok ())).2.1
  exact himp ⟨rfl, fun id _ => rfl⟩

end BtlzWb
